import Mathlib

/-!
Shallow embedding of the Time-Sheet-Converter core
(src/shared/schema.ts and the server logic in src/client/src/pages/Home.tsx).

Numbers are modelled as rationals (`ℚ`); every numeric value handled by the
source (hours, work units, prices) is an exact decimal well inside the range
where JavaScript doubles are exact, so rational arithmetic coincides with the
source arithmetic on all values that occur.  Monetary totals, produced by
`Math.round`, are integers (`ℤ`).
-/

namespace TimeSheet

attribute [local semireducible] Rat.ofScientific

/-- JavaScript `Math.round x` equals `⌊x + 0.5⌋` (round half toward +∞).
Computed with the executable `Rat.floor`. -/
def jsRound (q : ℚ) : ℤ :=
  Rat.floor (q + 1/2)

/-! ## Rate tables (src/shared/schema.ts) -/

/-- One entry of a rate table: `{ units, price }`. -/
structure RateEntry where
  units : ℚ
  price : ℚ
  deriving DecidableEq, Repr

/-- Rate table `maleRates` from schema.ts: the four canonical basic-hour keys
8, 6, 2.5, 1; any other key is absent (JS property lookup yields `undefined`). -/
def maleRates (basicHours : ℚ) : Option RateEntry :=
  if basicHours = 8 then some ⟨1, 117480⟩
  else if basicHours = 6 then some ⟨0.75, 88110⟩
  else if basicHours = 2.5 then some ⟨0.3125, 36713⟩
  else if basicHours = 1 then some ⟨0.125, 14685⟩
  else none

/-- Rate table `femaleRates` from schema.ts. -/
def femaleRates (basicHours : ℚ) : Option RateEntry :=
  if basicHours = 8 then some ⟨1, 108680⟩
  else if basicHours = 6 then some ⟨0.75, 81510⟩
  else if basicHours = 2.5 then some ⟨0.3125, 33963⟩
  else if basicHours = 1 then some ⟨0.125, 13585⟩
  else none

/-- Gender is kept as a plain string, as at the JavaScript runtime; the source
branches on `gender === '남'`, sending every other value to `femaleRates`. -/
def ratesFor (gender : String) : ℚ → Option RateEntry :=
  if gender = "남" then maleRates else femaleRates

/-- Function `getWorkUnits` from schema.ts: table hit returns its `units`,
miss (falsy `undefined`) returns 0. -/
def getWorkUnits (gender : String) (basicHours : ℚ) : ℚ :=
  match ratesFor gender basicHours with
  | some e => e.units
  | none => 0

/-- Function `getUnitPrice` from schema.ts: table hit returns its `price`,
miss returns 0. -/
def getUnitPrice (gender : String) (basicHours : ℚ) : ℚ :=
  match ratesFor gender basicHours with
  | some e => e.price
  | none => 0

/-- Function `calculateTotal` from schema.ts: `Math.round(workUnits * unitPrice)`. -/
def calculateTotal (workUnits unitPrice : ℚ) : ℤ :=
  jsRound (workUnits * unitPrice)

/-- The executable rounding agrees with the mathematical floor. -/
theorem jsRound_eq_intFloor (q : ℚ) : jsRound q = ⌊q + 1/2⌋ := by
  rw [jsRound, Rat.floor_def', ← Rat.floor_def]

/-! ## Weekend-special / weekly-holiday surcharge formulas (Home.tsx server part) -/

/-- Function `getWeekendSpecialWorkUnits` from Home.tsx. -/
def getWeekendSpecialWorkUnits (hours : ℚ) : ℚ :=
  if hours = 8 then 1
  else if hours = 6 then 0.75
  else if hours = 2.5 then 0.3125
  else if hours = 1 then 0.125
  else hours / 8

/-- Function `getWeekendSpecialUnitPrice` from Home.tsx: base price 171800. -/
def getWeekendSpecialUnitPrice (hours : ℚ) : ℤ :=
  jsRound (171800 * getWeekendSpecialWorkUnits hours)

/-- Function `getWeeklyHolidayWorkUnits` from Home.tsx. -/
def getWeeklyHolidayWorkUnits (hours : ℚ) : ℚ :=
  if hours = 8 then 1
  else if hours = 6 then 0.75
  else if hours = 2.5 then 0.3125
  else if hours = 1 then 0.125
  else hours / 8

/-- Function `getWeeklyHolidayUnitPrice` from Home.tsx: base price 99600. -/
def getWeeklyHolidayUnitPrice (hours : ℚ) : ℤ :=
  jsRound (99600 * getWeeklyHolidayWorkUnits hours)

/-! ## Cell values and JavaScript coercions

A raw spreadsheet cell as exposed by the grid abstraction: empty, numeric,
plain text, a date-typed value (only its day-of-month is relevant anywhere in
the source), or a rich-text run (read as its concatenated text). -/

inductive CellValue where
  | empty
  | num (q : ℚ)
  | text (s : String)
  | date (day : Nat)
  | rich (s : String)
  deriving DecidableEq, Repr

/-- Character test matching the regex class `\d`. -/
def isDigitChar (c : Char) : Bool :=
  48 ≤ c.toNat && c.toNat ≤ 57

/-- Whitespace stripped by JavaScript `trim()` — the ASCII whitespace
characters, which are the only whitespace that occurs in the cells handled
here. -/
def isWSChar (c : Char) : Bool :=
  c = ' ' ∨ c = '\t' ∨ c = '\n' ∨ c = '\r'

/-- JavaScript `s.trim()`: strip leading and trailing whitespace. -/
def trimString (s : String) : String :=
  String.mk (((s.data.dropWhile isWSChar).reverse.dropWhile isWSChar).reverse)

/-- Numeric value of a decimal digit character. -/
def digitVal (c : Char) : Nat :=
  c.toNat - 48

/-- Decimal value of a digit string. -/
def digitsToNat (cs : List Char) : Nat :=
  cs.foldl (fun acc c => acc * 10 + digitVal c) 0

/-- JavaScript `parseFloat(s) || 0`: skip leading whitespace, optional sign,
decimal digits, optional fraction, optional exponent; an input with no digit
is `NaN`, which the source's `|| 0` maps to 0. -/
def jsParseFloat (s : String) : ℚ :=
  let cs := s.data.dropWhile (fun c => c = ' ' ∨ c = '\t' ∨ c = '\n' ∨ c = '\r')
  let sgn : ℚ := match cs with
    | '-' :: _ => -1
    | _ => 1
  let cs := match cs with
    | '-' :: rest => rest
    | '+' :: rest => rest
    | _ => cs
  let intDigits := cs.takeWhile isDigitChar
  let cs2 := cs.drop intDigits.length
  let fracDigits := match cs2 with
    | '.' :: rest => rest.takeWhile isDigitChar
    | _ => []
  let cs3 := match cs2 with
    | '.' :: rest => rest.drop fracDigits.length
    | _ => cs2
  if intDigits = [] ∧ fracDigits = [] then 0
  else
    let mantissa : ℚ :=
      (digitsToNat intDigits : ℚ) + (digitsToNat fracDigits : ℚ) / (10 ^ fracDigits.length : ℚ)
    let expVal : ℤ := match cs3 with
      | c :: rest =>
        if c = 'e' ∨ c = 'E' then
          match rest with
          | '-' :: ds =>
            if ds.takeWhile isDigitChar = [] then 0
            else -(digitsToNat (ds.takeWhile isDigitChar) : ℤ)
          | '+' :: ds =>
            if ds.takeWhile isDigitChar = [] then 0
            else (digitsToNat (ds.takeWhile isDigitChar) : ℤ)
          | ds =>
            if ds.takeWhile isDigitChar = [] then 0
            else (digitsToNat (ds.takeWhile isDigitChar) : ℤ)
        else 0
      | [] => 0
    sgn * mantissa * (10 : ℚ) ^ expVal

/-- Exponent of `p` in `n` together with the remaining cofactor. -/
def stripFactor (p n : Nat) : Nat × Nat :=
  if h : 1 < p ∧ 1 < n ∧ n % p = 0 then
    let r := stripFactor p (n / p)
    (r.1 + 1, r.2)
  else (0, n)
termination_by n
decreasing_by
  exact Nat.div_lt_self (by omega) h.1

/-- Rendering of a nonnegative rational with a terminating decimal expansion,
as JavaScript number-to-string produces (integer part, then a fraction with no
trailing zeros).  Spreadsheet numbers are binary floats, so their denominators
are powers of two and always terminate; a nonterminating rational (impossible
for cell data) renders as a digit-free marker. -/
def decimalString (q : ℚ) : String :=
  let den := q.den
  let a := (stripFactor 2 den).1
  let b := (stripFactor 5 (stripFactor 2 den).2).1
  if (stripFactor 5 (stripFactor 2 den).2).2 = 1 then
    let k := max a b
    let scaled := q.num.toNat * (10 ^ k / den)
    let intPart := scaled / 10 ^ k
    let fracPart := scaled % 10 ^ k
    let fracStr := Nat.repr fracPart
    let padded := String.mk (List.replicate (k - fracStr.length) '0') ++ fracStr
    Nat.repr intPart ++ "." ++ padded
  else "nonterminating"

/-- JavaScript number-to-string for the rationals the source can hold. -/
def ratToString (q : ℚ) : String :=
  if q < 0 then "-" ++ decimalString (-q)
  else if q.den = 1 then Nat.repr q.num.toNat
  else decimalString q

/-- Rendering used by the source's `String(cell.value || '')`: `null` and the
falsy values `0` and `''` render as the empty string; a date object renders as
a verbose English date string, which never equals any header label and never
parses as a number — modelled by a fixed placeholder; any other object
(rich text) renders as `[object Object]`. -/
def jsString : CellValue → String
  | .empty => ""
  | .num q => if q = 0 then "" else ratToString q
  | .text s => s
  | .date _ => "DateCellText"
  | .rich _ => "[object Object]"

/-- Numeric coercion of a data cell in the reconstruction walk: the source
skips `null`/`undefined`/`''`, passes numbers through, applies
`parseFloat(…) || 0` to strings, and leaves `numValue = 0` for any other
object (date, rich text).  Every skipped case coincides with coercing to 0,
since the only use of the result is the `numValue > 0` test. -/
def cellNum : CellValue → ℚ
  | .empty => 0
  | .num q => q
  | .text s => jsParseFloat s
  | .date _ => 0
  | .rich _ => 0

/-- Unanchored group-2 match of the second number after the slash for the
regex `(\d{1,2})\/(\d{1,2})`: greedy, two digits if available, else one. -/
def mdAfterSlash : List Char → Option Nat
  | a :: b :: _ =>
    if isDigitChar a then
      if isDigitChar b then some (digitVal a * 10 + digitVal b) else some (digitVal a)
    else none
  | [a] => if isDigitChar a then some (digitVal a) else none
  | [] => none

/-- Attempt to match `(\d{1,2})\/(\d{1,2})` at the head of the character list.
When the first two characters are digits followed by a slash the one-digit
alternative for group 1 cannot apply (its next character would have to be both
a digit and a slash), so no further backtracking is needed. -/
def tryMDAt : List Char → Option Nat
  | a :: b :: c :: rest =>
    if isDigitChar a ∧ isDigitChar b ∧ c = '/' then mdAfterSlash rest
    else if isDigitChar a ∧ b = '/' then mdAfterSlash (c :: rest)
    else none
  | _ => none

/-- JavaScript `value.match(/(\d{1,2})\/(\d{1,2})/)`, returning the parsed
second group: try each start position left to right. -/
def matchMD : List Char → Option Nat
  | [] => none
  | c :: rest =>
    match tryMDAt (c :: rest) with
    | some d => some d
    | none => matchMD rest

/-- JavaScript `value.match(/^(\d{1,2})$/)`: the whole string is one or two
digits. -/
def matchBare (s : String) : Option Nat :=
  match s.data with
  | [a] => if isDigitChar a then some (digitVal a) else none
  | [a, b] => if isDigitChar a ∧ isDigitChar b then some (digitVal a * 10 + digitVal b) else none
  | _ => none

/-! ## Output-row pricing (createOutputWorkbook in Home.tsx)

One reconstructed attendance row. The source stores the day as the decimal
string `String(day)` (field `date`) and parses it back with `parseInt`
wherever the number is needed; that round trip is the identity, so the day is
embedded directly as a natural number. -/

structure AttendanceRow where
  gender : String
  name : String
  day : Nat
  basicHours : ℚ
  overtimeHours : ℚ
  weekendSpecialHours : ℚ
  weeklyHolidayHours : ℚ
  deriving DecidableEq, Repr

/-- Work units of a priced output row (createOutputWorkbook):
`row.basicHours > 0 ? getWorkUnits(row.gender, row.basicHours) : 0`. -/
def outputWorkUnits (row : AttendanceRow) : ℚ :=
  if 0 < row.basicHours then getWorkUnits row.gender row.basicHours else 0

/-- Unit price of a priced output row (createOutputWorkbook). -/
def outputUnitPrice (row : AttendanceRow) : ℚ :=
  if 0 < row.basicHours then getUnitPrice row.gender row.basicHours else 0

/-- Basic total of a priced output row: `calculateTotal(workUnits, unitPrice)`. -/
def outputBasicTotal (row : AttendanceRow) : ℤ :=
  calculateTotal (outputWorkUnits row) (outputUnitPrice row)

/-- Weekend-special total of a priced output row (createOutputWorkbook). -/
def outputWeekendSpecialTotal (row : AttendanceRow) : ℤ :=
  if 0 < row.weekendSpecialHours then getWeekendSpecialUnitPrice row.weekendSpecialHours else 0

/-- Weekly-holiday total of a priced output row (createOutputWorkbook). -/
def outputWeeklyHolidayTotal (row : AttendanceRow) : ℤ :=
  if 0 < row.weeklyHolidayHours then getWeeklyHolidayUnitPrice row.weeklyHolidayHours else 0

/-- Grand total written in the final column of the output sheet
(createOutputWorkbook): `total = basicTotal + weekendSpecialTotal + weeklyHolidayTotal`. -/
def outputGrandTotal (row : AttendanceRow) : ℤ :=
  outputBasicTotal row + outputWeekendSpecialTotal row + outputWeeklyHolidayTotal row

/-! ## Header scan (parseAttendanceSheet, header detection) -/

/-- Raw grid: rows of cells, row `r` (1-based) at list index `r - 1`,
column `c` (1-based) at list index `c - 1`.  `eachCell` iterates the stored
cells in ascending column order; an absent cell behaves exactly like an empty
one in every scan (its rendered text is empty and matches nothing), so
iterating all positions is equivalent. -/
abbrev Grid := List (List CellValue)

/-- Mutable detection state of the header scan, with the source's `-1`
sentinels for fields not yet found. -/
structure HdrState where
  genderCol : Int
  nameCol : Int
  categoryCol : Int
  headerRow : Int
  deriving DecidableEq, Repr

/-- Processing of one cell in the header scan: an unconditional assignment on
each label match (a later matching cell overwrites an earlier assignment). -/
def scanCell (st : HdrState) (rowNum col : Nat) (cv : CellValue) : HdrState :=
  let value := trimString (jsString cv)
  if value = "성별" then { st with genderCol := (col : Int), headerRow := (rowNum : Int) }
  else if value = "성명" ∨ value = "이름" then { st with nameCol := (col : Int) }
  else if value = "구분" then { st with categoryCol := (col : Int) }
  else st

/-- Header scan over the cells of one row, columns numbered from `col`. -/
def scanCells (st : HdrState) (rowNum : Nat) (col : Nat) : List CellValue → HdrState
  | [] => st
  | cv :: rest => scanCells (scanCell st rowNum col cv) rowNum (col + 1) rest

/-- The early-exit test `genderColIndex > 0 && nameColIndex > 0 && categoryColIndex > 0`. -/
def hdrComplete (st : HdrState) : Bool :=
  0 < st.genderCol && 0 < st.nameCol && 0 < st.categoryCol

/-- Header scan over successive rows, stopping after the first row at whose
end all three fields are assigned. -/
def scanRows (st : HdrState) (rowNum : Nat) : List (List CellValue) → HdrState
  | [] => st
  | r :: rs =>
    let st2 := scanCells st rowNum 1 r
    if hdrComplete st2 then st2 else scanRows st2 (rowNum + 1) rs

/-- Discovered column indices after default substitution. -/
structure ColumnMap where
  genderCol : Nat
  nameCol : Nat
  categoryCol : Nat
  headerRow : Nat
  deriving DecidableEq, Repr

/-- Header detection of `parseAttendanceSheet`: scan rows `1..min(15, rowCount)`
and substitute the defaults 1 / 2 / 3 / 1 for any field still at `-1`. -/
def headerScan (g : Grid) : ColumnMap :=
  let st := scanRows ⟨-1, -1, -1, -1⟩ 1 (g.take 15)
  { genderCol := (if st.genderCol = -1 then 1 else st.genderCol).toNat
    nameCol := (if st.nameCol = -1 then 2 else st.nameCol).toNat
    categoryCol := (if st.categoryCol = -1 then 3 else st.categoryCol).toNat
    headerRow := (if st.headerRow = -1 then 1 else st.headerRow).toNat }

/-! ## Date-column scan (parseAttendanceSheet, dateHeaders) -/

/-- One discovered date column. -/
structure DateHeader where
  col : Nat
  day : Nat
  deriving DecidableEq, Repr

/-- Append `⟨col, day⟩` unless the column already has an entry — every push in
the source is guarded by `!dateHeaders.some(h => h.col === colNumber)`. -/
def pushIfNew (acc : List DateHeader) (col day : Nat) : List DateHeader :=
  if acc.any (fun h => h.col == col) then acc else acc ++ [⟨col, day⟩]

/-- The two text patterns tried on a rendered cell value, in source order:
the `M/D` pattern (second captured number, stored with no range check), then
the bare 1–2 digit pattern restricted to `1..31`. -/
def dateScanText (acc : List DateHeader) (col : Nat) (value : String) : List DateHeader :=
  match matchMD value.data with
  | some day => pushIfNew acc col day
  | none =>
    match matchBare value with
    | some day => if 1 ≤ day ∧ day ≤ 31 then pushIfNew acc col day else acc
    | none => acc

/-- Processing of one cell of the date scan, restricted to columns
`categoryCol+1 .. categoryCol+35`.  A date-typed cell records its day and
renders as `[Date:d]`, on which neither text pattern can fire (it contains no
slash and is not a bare 1–2 digit string), so only the push remains. -/
def dateScanCell (catCol : Nat) (acc : List DateHeader) (col : Nat) (cv : CellValue) : List DateHeader :=
  if catCol < col ∧ col ≤ catCol + 35 then
    match cv with
    | .date d => pushIfNew acc col d
    | .rich s => dateScanText acc col s
    | cv => dateScanText acc col (trimString (jsString cv))
  else acc

/-- Date scan over the cells of one row. -/
def dateScanRow (catCol : Nat) (acc : List DateHeader) (col : Nat) : List CellValue → List DateHeader
  | [] => acc
  | cv :: rest => dateScanRow catCol (dateScanCell catCol acc col cv) (col + 1) rest

/-- Date scan over successive rows, stopping once at least 10 date columns
have been found. -/
def dateScanRows (catCol : Nat) (acc : List DateHeader) : List (List CellValue) → List DateHeader
  | [] => acc
  | r :: rs =>
    let acc2 := dateScanRow catCol acc 1 r
    if 10 ≤ acc2.length then acc2 else dateScanRows catCol acc2 rs

/-- Date-column detection of `parseAttendanceSheet`: scan rows
`1..min(10, rowCount)` and sort the result by column ascending. -/
def dateScan (g : Grid) : List DateHeader :=
  let cm := headerScan g
  List.insertionSort (fun a b => a.col ≤ b.col) (dateScanRows cm.categoryCol [] (g.take 10))

/-! ## Reconstruction walk (parseAttendanceSheet, data rows) -/

/-- Per-worker accumulator (`WorkerData` in the source).  The four day→hours
maps mirror JS `Map`s: association lists where `set` updates in place and
otherwise appends, preserving insertion order. -/
structure WorkerData where
  gender : String
  name : String
  order : Nat
  basicHours : List (Nat × ℚ)
  overtimeHours : List (Nat × ℚ)
  weekendSpecialHours : List (Nat × ℚ)
  weeklyHolidayHours : List (Nat × ℚ)
  deriving DecidableEq, Repr

/-- JS `Map.set`: overwrite in place, or append a new entry. -/
def mapSet (m : List (Nat × ℚ)) (k : Nat) (v : ℚ) : List (Nat × ℚ) :=
  if m.any (fun p => p.1 == k) then m.map (fun p => if p.1 = k then (k, v) else p)
  else m ++ [(k, v)]

/-- JS `Map.get`. -/
def mapGet (m : List (Nat × ℚ)) (k : Nat) : Option ℚ :=
  (m.find? (fun p => p.1 == k)).map (fun p => p.2)

/-- Read the cell of a (1-based) column of a row. -/
def getCell (row : List CellValue) (col : Nat) : CellValue :=
  row.getD (col - 1) .empty

/-- Rendered, trimmed text of a row's cell, as read for the gender, name and
category columns. -/
def readCellText (row : List CellValue) (col : Nat) : String :=
  trimString (jsString (getCell row col))

/-- Category dispatch for one positive cell value: the `기본` branch stores
only the canonical hour values 8, 6, 2.5, 1; the other three branches store
unconditionally. -/
def applyCategory (category : String) (day : Nat) (v : ℚ) (w : WorkerData) : WorkerData :=
  if category = "기본" then
    if v = 8 ∨ v = 6 ∨ v = 2.5 ∨ v = 1 then { w with basicHours := mapSet w.basicHours day v }
    else w
  else if category = "연장" then { w with overtimeHours := mapSet w.overtimeHours day v }
  else if category = "주특" then { w with weekendSpecialHours := mapSet w.weekendSpecialHours day v }
  else if category = "주휴" then { w with weeklyHolidayHours := mapSet w.weeklyHolidayHours day v }
  else w

/-- Processing of one date column for one data row: coerce the cell, and on a
positive value store it for the row's category at that column's day. -/
def dateHeaderStep (category : String) (row : List CellValue) (w : WorkerData)
    (dh : DateHeader) : WorkerData :=
  let v := cellNum (getCell row dh.col)
  if 0 < v then applyCategory category dh.day v w else w

/-- One data row's sweep over the discovered date columns, accumulating every
positive coerced value into the worker's map for the row's category. -/
def applyDateHeaders (category : String) (row : List CellValue) (dhs : List DateHeader)
    (w : WorkerData) : WorkerData :=
  dhs.foldl (dateHeaderStep category row) w

/-- State of the data-row walk: the insertion-ordered worker map (keyed by the
source's joined `gender-name` string), the forward-fill cursors, and the next
discovery-order index. -/
structure WalkState where
  workers : List (String × WorkerData)
  curGender : String
  curName : String
  nextOrder : Nat
  deriving DecidableEq, Repr

/-- Update the worker stored under a key, keeping its position. -/
def updateEntry (ws : List (String × WorkerData)) (key : String)
    (f : WorkerData → WorkerData) : List (String × WorkerData) :=
  ws.map (fun p => if p.1 = key then (p.1, f p.2) else p)

/-- Forward fill of the gender cursor: the source updates it only when the
cell value is exactly `남` or `여`. -/
def fillGender (cur genderValue : String) : String :=
  if genderValue = "남" ∨ genderValue = "여" then genderValue else cur

/-- Forward fill of the name cursor: updated on any non-empty value. -/
def fillName (cur nameValue : String) : String :=
  if nameValue ≠ "" then nameValue else cur

/-- Processing of one data row: forward-fill the gender and name cursors, skip
the row while the name is still empty or the category is unrecognized, then
find or create the worker and accumulate the row's date-column values. -/
def processRow (dhs : List DateHeader) (cm : ColumnMap) (st : WalkState)
    (row : List CellValue) : WalkState :=
  let genderValue := readCellText row cm.genderCol
  let nameValue := readCellText row cm.nameCol
  let categoryValue := readCellText row cm.categoryCol
  let g := fillGender st.curGender genderValue
  let n := fillName st.curName nameValue
  if n = "" then { st with curGender := g, curName := n }
  else if ¬(categoryValue = "기본" ∨ categoryValue = "연장" ∨
      categoryValue = "주특" ∨ categoryValue = "주휴") then
    { st with curGender := g, curName := n }
  else
    let key := g ++ "-" ++ n
    if st.workers.any (fun p => p.1 == key) then
      { workers := updateEntry st.workers key (applyDateHeaders categoryValue row dhs)
        curGender := g, curName := n, nextOrder := st.nextOrder }
    else
      { workers := st.workers ++
          [(key, applyDateHeaders categoryValue row dhs ⟨g, n, st.nextOrder, [], [], [], []⟩)]
        curGender := g, curName := n, nextOrder := st.nextOrder + 1 }

/-- The whole data-row walk, from row `headerRow + 1` to the last row, with
the source's initial cursors (`'남'`, empty name). -/
def buildWalk (g : Grid) : WalkState :=
  let cm := headerScan g
  let dhs := dateScan g
  (g.drop cm.headerRow).foldl (processRow dhs cm) ⟨[], "남", "", 0⟩

/-- The reconstructed workers, in discovery order. -/
def buildWorkers (g : Grid) : List WorkerData :=
  (buildWalk g).workers.map (fun p => p.2)

/-! ## Row emission and ordering (parseAttendanceSheet, tail) -/

/-- Pre-sort output row carrying the worker's discovery-order index. -/
structure TempRow where
  gender : String
  name : String
  day : Nat
  basicHours : ℚ
  overtimeHours : ℚ
  weekendSpecialHours : ℚ
  weeklyHolidayHours : ℚ
  workerOrder : Nat
  deriving DecidableEq, Repr

/-- JS `Set.add`: append unless present (first-occurrence order). -/
def insertDay (l : List Nat) (d : Nat) : List Nat :=
  if d ∈ l then l else l ++ [d]

/-- The union of days present in the basic, weekend-special and
weekly-holiday maps, in first-insertion order — overtime days do not
contribute. -/
def allDaysOf (w : WorkerData) : List Nat :=
  ((w.basicHours.map Prod.fst ++ w.weekendSpecialHours.map Prod.fst) ++
    w.weeklyHolidayHours.map Prod.fst).foldl insertDay []

/-- Rows emitted for one worker: one per collected day, kept only when basic,
weekend-special or weekly-holiday hours for that day are positive. -/
def emitWorker (w : WorkerData) : List TempRow :=
  (allDaysOf w).filterMap (fun day =>
    let basicHours := (mapGet w.basicHours day).getD 0
    let overtimeHours := (mapGet w.overtimeHours day).getD 0
    let weekendSpecialHours := (mapGet w.weekendSpecialHours day).getD 0
    let weeklyHolidayHours := (mapGet w.weeklyHolidayHours day).getD 0
    if 0 < basicHours ∨ 0 < weekendSpecialHours ∨ 0 < weeklyHolidayHours then
      some ⟨w.gender, w.name, day, basicHours, overtimeHours, weekendSpecialHours,
        weeklyHolidayHours, w.order⟩
    else none)

/-- The source's sort comparator (day difference, then worker-order
difference), as the equivalent ordering relation for a comparison sort. -/
def tempLe (a b : TempRow) : Prop :=
  a.day < b.day ∨ (a.day = b.day ∧ a.workerOrder ≤ b.workerOrder)

instance : DecidableRel tempLe := fun a b =>
  inferInstanceAs (Decidable (a.day < b.day ∨ (a.day = b.day ∧ a.workerOrder ≤ b.workerOrder)))

/-- All emitted rows, sorted by day ascending with discovery order as the
tie-break.  Distinct rows never compare equal under `tempLe` both ways
(each worker contributes one row per day), so any comparison sort — the
source's `Array.prototype.sort` included — produces this unique order;
a stable insertion sort realizes it. -/
def reconstructTemp (g : Grid) : List TempRow :=
  List.insertionSort tempLe (((buildWorkers g).map emitWorker).flatten)

/-- Function `parseAttendanceSheet`: the final ordered row list. -/
def parseAttendanceSheet (g : Grid) : List AttendanceRow :=
  (reconstructTemp g).map (fun t =>
    ⟨t.gender, t.name, t.day, t.basicHours, t.overtimeHours, t.weekendSpecialHours,
      t.weeklyHolidayHours⟩)

/-! ## Claim theorems -/

/-- C1: for every canonical basic-hour value in {8, 6, 2.5, 1} and each gender
`남` / `여`, `getWorkUnits` and `getUnitPrice` return exactly the pair defined
in that gender's static rate table, and for every other basic-hour value both
return 0. -/
theorem rate_table_lookup_exact :
    (getWorkUnits "남" 8 = 1 ∧ getUnitPrice "남" 8 = 117480 ∧
      getWorkUnits "남" 6 = 0.75 ∧ getUnitPrice "남" 6 = 88110 ∧
      getWorkUnits "남" 2.5 = 0.3125 ∧ getUnitPrice "남" 2.5 = 36713 ∧
      getWorkUnits "남" 1 = 0.125 ∧ getUnitPrice "남" 1 = 14685 ∧
      getWorkUnits "여" 8 = 1 ∧ getUnitPrice "여" 8 = 108680 ∧
      getWorkUnits "여" 6 = 0.75 ∧ getUnitPrice "여" 6 = 81510 ∧
      getWorkUnits "여" 2.5 = 0.3125 ∧ getUnitPrice "여" 2.5 = 33963 ∧
      getWorkUnits "여" 1 = 0.125 ∧ getUnitPrice "여" 1 = 13585) ∧
    ∀ (g : String) (h : ℚ), (g = "남" ∨ g = "여") →
      h ≠ 8 → h ≠ 6 → h ≠ 2.5 → h ≠ 1 →
      getWorkUnits g h = 0 ∧ getUnitPrice g h = 0 := by
  refine ⟨by decide, ?_⟩
  intro g h _ h8 h6 h25 h1
  rcases instDecidableEqString g "남" with hg | hg
  · simp [getWorkUnits, getUnitPrice, ratesFor, femaleRates, hg, h8, h6, h25, h1]
  · simp [getWorkUnits, getUnitPrice, ratesFor, maleRates, hg, h8, h6, h25, h1]

/-- C1 witness: the non-canonical hour value 4 yields 0 for both fields. -/
theorem rate_table_lookup_exact_witness :
    getWorkUnits "남" 4 = 0 ∧ getUnitPrice "남" 4 = 0 :=
  rate_table_lookup_exact.2 "남" 4 (Or.inl rfl)
    (by decide) (by decide) (by decide) (by decide)

/-- C2: for every positive hours value, the weekend-special total equals
`round(171800 × units(hours))` and the weekly-holiday total equals
`round(99600 × units(hours))`, where `units` maps 8→1, 6→0.75, 2.5→0.3125,
1→0.125 and any other value to `hours / 8`. -/
theorem surcharge_totals_formula :
    ∀ h : ℚ, 0 < h →
      getWeekendSpecialUnitPrice h =
        jsRound (171800 * (if h = 8 then 1 else if h = 6 then 0.75
          else if h = 2.5 then 0.3125 else if h = 1 then 0.125 else h / 8)) ∧
      getWeeklyHolidayUnitPrice h =
        jsRound (99600 * (if h = 8 then 1 else if h = 6 then 0.75
          else if h = 2.5 then 0.3125 else if h = 1 then 0.125 else h / 8)) := by
  intro h _
  exact ⟨rfl, rfl⟩

/-- C2 witness: hours 4 gives units 0.5, weekend-special total
`round(171800 × 0.5) = 85900` and weekly-holiday total 49800. -/
theorem surcharge_totals_formula_witness :
    (0 : ℚ) < 4 ∧ getWeekendSpecialUnitPrice 4 = 85900 ∧
      getWeeklyHolidayUnitPrice 4 = 49800 := by
  refine ⟨by norm_num, ?_, ?_⟩
  · rw [(surcharge_totals_formula 4 (by norm_num)).1, jsRound_eq_intFloor]; norm_num
  · rw [(surcharge_totals_formula 4 (by norm_num)).2, jsRound_eq_intFloor]; norm_num

/-- C3: the grand total of every output row equals
`basicTotal + weekendSpecialTotal + weeklyHolidayTotal` with
`basicTotal = round(workUnits × unitPrice)`, and the overtime hours of the row
contribute nothing to it: changing them arbitrarily leaves the total
unchanged. -/
theorem grand_total_decomposition :
    ∀ row : AttendanceRow,
      outputGrandTotal row =
        calculateTotal (outputWorkUnits row) (outputUnitPrice row) +
          outputWeekendSpecialTotal row + outputWeeklyHolidayTotal row ∧
      ∀ ot : ℚ, outputGrandTotal { row with overtimeHours := ot } = outputGrandTotal row := by
  intro row
  exact ⟨rfl, fun _ => rfl⟩

/-- C10: the piecewise special cases of both surcharge work-unit functions
agree with the linear fallback, so each is extensionally the plain function
`hours / 8`. -/
theorem surcharge_work_units_linear :
    ∀ h : ℚ, getWeekendSpecialWorkUnits h = h / 8 ∧ getWeeklyHolidayWorkUnits h = h / 8 := by
  intro h
  constructor
  · simp only [getWeekendSpecialWorkUnits]
    split_ifs with e1 e2 e3 e4
    · rw [e1]; norm_num
    · rw [e2]; norm_num
    · rw [e3]; norm_num
    · rw [e4]; norm_num
    · rfl
  · simp only [getWeeklyHolidayWorkUnits]
    split_ifs with e1 e2 e3 e4
    · rw [e1]; norm_num
    · rw [e2]; norm_num
    · rw [e3]; norm_num
    · rw [e4]; norm_num
    · rfl

instance : IsTrans TempRow tempLe :=
  ⟨by
    intro a b c hab hbc
    rcases hab with h | ⟨h1, h2⟩ <;> rcases hbc with h' | ⟨h1', h2'⟩ <;>
      simp only [tempLe] <;> omega⟩

instance : IsTotal TempRow tempLe :=
  ⟨by
    intro a b
    simp only [tempLe]
    omega⟩

/-- C6: the reconstructed row sequence is sorted by day ascending and, among
rows of equal day, by the workers' discovery-order index ascending; in
particular a worker discovered earlier precedes a worker discovered later on
any shared day, independently of the names.  The exported rows are the
order-preserving projection of these, so their days are nondecreasing. -/
theorem rows_sorted_by_day_then_discovery :
    ∀ g : Grid,
      (reconstructTemp g).Pairwise
        (fun a b => a.day < b.day ∨ (a.day = b.day ∧ a.workerOrder ≤ b.workerOrder)) ∧
      (parseAttendanceSheet g).Pairwise (fun a b => a.day ≤ b.day) := by
  intro g
  have hs : (reconstructTemp g).Pairwise tempLe :=
    List.sorted_insertionSort tempLe (((buildWorkers g).map emitWorker).flatten)
  refine ⟨hs, ?_⟩
  exact hs.map _ (by
    intro a b hab
    rcases hab with h | ⟨h1, _⟩
    · exact Nat.le_of_lt h
    · exact Nat.le_of_eq h1)

/-- C5: every row emitted by the reconstruction has positive basic,
weekend-special or weekly-holiday hours; a worker-day recorded only through
overtime never yields a row. -/
theorem emitted_rows_have_positive_hours :
    ∀ (g : Grid) (r : AttendanceRow), r ∈ parseAttendanceSheet g →
      0 < r.basicHours ∨ 0 < r.weekendSpecialHours ∨ 0 < r.weeklyHolidayHours := by
  intro g r hr
  simp only [parseAttendanceSheet, List.mem_map] at hr
  obtain ⟨t, ht, rfl⟩ := hr
  have ht' : t ∈ ((buildWorkers g).map emitWorker).flatten := by
    simpa [reconstructTemp, List.mem_insertionSort] using ht
  simp only [List.mem_flatten, List.mem_map] at ht'
  obtain ⟨l, ⟨w, _, rfl⟩, htl⟩ := ht'
  simp only [emitWorker, List.mem_filterMap] at htl
  obtain ⟨day, _, hsome⟩ := htl
  by_cases hpos : 0 < (mapGet w.basicHours day).getD 0 ∨
      0 < (mapGet w.weekendSpecialHours day).getD 0 ∨
      0 < (mapGet w.weeklyHolidayHours day).getD 0
  · rw [if_pos hpos] at hsome
    cases hsome
    simpa using hpos
  · rw [if_neg hpos] at hsome
    cases hsome

/-! ## Concrete grids used by witnesses and counterexamples -/

set_option maxRecDepth 8000

/-- Grid with no header labels (defaults apply), date columns 4 and 5 holding
days 1 and 2, and one `기본` data row whose day-1 value is the non-canonical 4
and whose day-2 value is the canonical 8. -/
def gridC4 : Grid :=
  [[.empty, .empty, .empty, .text "1", .text "2"],
   [.text "남", .text "김", .text "기본", .num 4, .num 8]]

/-- Grid whose third row carries the non-empty gender-cell value `x` (neither
`남` nor `여`) while introducing the new worker `이`. -/
def gridC9 : Grid :=
  [[.empty, .empty, .empty, .text "1"],
   [.text "여", .text "김", .text "기본", .num 8],
   [.text "x", .text "이", .text "기본", .num 8]]

/-- Header row carrying the label `성별` twice, at columns 1 and 4. -/
def gridC7 : Grid :=
  [[.text "성별", .text "성명", .text "구분", .text "성별"]]

/-- Grid whose only date-region cell is the text `1/99`. -/
def gridC8 : Grid :=
  [[.empty, .empty, .empty, .text "1/99"]]

/-! ## Basic-hours canonicity invariant (claim C4) -/

/-- Every value stored in a worker's basic-hours map is canonical. -/
def BasicCanonical (w : WorkerData) : Prop :=
  ∀ p ∈ w.basicHours, p.2 = 8 ∨ p.2 = 6 ∨ p.2 = 2.5 ∨ p.2 = 1

/-- Every worker accumulated in a walk state satisfies `BasicCanonical`. -/
def AllBasicCanonical (st : WalkState) : Prop :=
  ∀ p ∈ st.workers, BasicCanonical p.2

theorem mem_mapSet {m : List (Nat × ℚ)} {k : Nat} {v : ℚ} {p : Nat × ℚ}
    (hp : p ∈ mapSet m k v) : p ∈ m ∨ p = (k, v) := by
  unfold mapSet at hp
  split_ifs at hp with h
  · rcases List.mem_map.mp hp with ⟨q, hq, rfl⟩
    by_cases hqk : q.1 = k
    · right
      simp [hqk]
    · left
      simpa [hqk] using hq
  · rcases List.mem_append.mp hp with h' | h'
    · exact Or.inl h'
    · right
      simpa using h'

theorem applyCategory_preserves {cat : String} {day : Nat} {v : ℚ} {w : WorkerData}
    (hw : BasicCanonical w) : BasicCanonical (applyCategory cat day v w) := by
  unfold applyCategory
  split_ifs with h1 h2 h3 h4 h5
  · intro p hp
    rcases mem_mapSet hp with hp' | rfl
    · exact hw p hp'
    · exact h2
  · exact hw
  · exact hw
  · exact hw
  · exact hw
  · exact hw

theorem dateHeaderStep_preserves {cat : String} {row : List CellValue} {w : WorkerData}
    {dh : DateHeader} (hw : BasicCanonical w) : BasicCanonical (dateHeaderStep cat row w dh) := by
  simp only [dateHeaderStep]
  split_ifs with h
  · exact applyCategory_preserves hw
  · exact hw

theorem applyDateHeaders_preserves {cat : String} {row : List CellValue}
    (dhs : List DateHeader) {w : WorkerData} (hw : BasicCanonical w) :
    BasicCanonical (applyDateHeaders cat row dhs w) := by
  unfold applyDateHeaders
  induction dhs generalizing w with
  | nil => exact hw
  | cons dh rest ih =>
    rw [List.foldl_cons]
    exact ih (dateHeaderStep_preserves hw)

theorem mem_updateEntry {ws : List (String × WorkerData)} {key : String}
    {f : WorkerData → WorkerData} {p : String × WorkerData} (hp : p ∈ updateEntry ws key f) :
    ∃ q ∈ ws, p = q ∨ p = (q.1, f q.2) := by
  unfold updateEntry at hp
  rcases List.mem_map.mp hp with ⟨q, hq, rfl⟩
  by_cases h : q.1 = key
  · exact ⟨q, hq, Or.inr (by simp [h])⟩
  · exact ⟨q, hq, Or.inl (by simp [h])⟩

theorem processRow_preserves {dhs : List DateHeader} {cm : ColumnMap} {st : WalkState}
    {row : List CellValue} (h : AllBasicCanonical st) :
    AllBasicCanonical (processRow dhs cm st row) := by
  simp only [processRow]
  split_ifs with h1 h2 h3
  · exact h
  · intro p hp
    obtain ⟨q, hq, hpq⟩ := mem_updateEntry hp
    rcases hpq with h' | h'
    · rw [h']
      exact h q hq
    · rw [h']
      exact applyDateHeaders_preserves dhs (h q hq)
  · intro p hp
    rcases List.mem_append.mp hp with hp1 | hp1
    · exact h p hp1
    · have hp2 := List.mem_singleton.mp hp1
      subst hp2
      exact applyDateHeaders_preserves dhs (by intro q hq; cases hq)
  · exact h

theorem walk_rows_preserve (dhs : List DateHeader) (cm : ColumnMap) :
    ∀ (rows : List (List CellValue)) (st : WalkState), AllBasicCanonical st →
      AllBasicCanonical (rows.foldl (processRow dhs cm) st)
  | [], _, h => h
  | _ :: rs, _, h => walk_rows_preserve dhs cm rs _ (processRow_preserves h)

/-- C4: reconstruction never stores a non-canonical basic-hour value: every
value in every accumulated worker's basic map is one of 8, 6, 2.5, 1; and on
the concrete grid whose `기본` row holds 4 at day 1 and 8 at day 2 the day-1
entry is absent from the basic map while day 2 is present. -/
theorem basic_hours_always_canonical :
    (∀ (g : Grid) (w : WorkerData), w ∈ buildWorkers g →
      ∀ (d : Nat) (v : ℚ), (d, v) ∈ w.basicHours → v = 8 ∨ v = 6 ∨ v = 2.5 ∨ v = 1) ∧
    (buildWorkers gridC4).map
        (fun w => (w.name, mapGet w.basicHours 1, mapGet w.basicHours 2)) =
      [("김", none, some 8)] := by
  constructor
  · intro g w hw d v hdv
    have hall : AllBasicCanonical (buildWalk g) := by
      show AllBasicCanonical ((g.drop (headerScan g).headerRow).foldl
        (processRow (dateScan g) (headerScan g)) ⟨[], "남", "", 0⟩)
      exact walk_rows_preserve _ _ _ _ (by intro p hp; cases hp)
    rcases List.mem_map.mp hw with ⟨q, hq, rfl⟩
    exact hall q hq (d, v) hdv
  · decide

/-- C4 witness: the worker accumulated from `gridC4` is in the walk result and
its surviving day-2 value 8 is canonical. -/
theorem basic_hours_always_canonical_witness :
    (⟨"남", "김", 0, [(2, 8)], [], [], []⟩ : WorkerData) ∈ buildWorkers gridC4 ∧
      ((2 : Nat), (8 : ℚ)) ∈ [((2 : Nat), (8 : ℚ))] ∧
      ((8 : ℚ) = 8 ∨ (8 : ℚ) = 6 ∨ (8 : ℚ) = 2.5 ∨ (8 : ℚ) = 1) :=
  ⟨by decide, by decide,
    basic_hours_always_canonical.1 gridC4 ⟨"남", "김", 0, [(2, 8)], [], [], []⟩
      (by decide) 2 8 (by decide)⟩

/-- C5 witness: the single row reconstructed from `gridC4` satisfies the
positivity disjunction. -/
theorem emitted_rows_have_positive_hours_witness :
    (⟨"남", "김", 2, 8, 0, 0, 0⟩ : AttendanceRow) ∈ parseAttendanceSheet gridC4 ∧
      (0 < (8 : ℚ) ∨ 0 < (0 : ℚ) ∨ 0 < (0 : ℚ)) :=
  ⟨by decide,
    emitted_rows_have_positive_hours gridC4 ⟨"남", "김", 2, 8, 0, 0, 0⟩ (by decide)⟩

/-! ## Forward fill (claim C9) -/

/-- C9 counterexample: the third row of `gridC9` carries the non-empty
gender-cell value `x`; were the gender cursor updated on every non-empty
value, the worker introduced on that row would be recorded with gender `x`,
but the source updates the cursor only on the exact values `남` / `여`, so the
emitted row inherits the previous gender `여`. -/
theorem forward_fill_gender_counterexample :
    readCellText [CellValue.text "x", CellValue.text "이", CellValue.text "기본",
        CellValue.num 8] 1 = "x" ∧
      ("x" : String) ≠ "" ∧
      (parseAttendanceSheet gridC9).map (fun r => (r.gender, r.name)) =
        [("여", "김"), ("여", "이")] := by
  refine ⟨by decide, by decide, by decide⟩

/-- C9 amended: during the data-row walk the gender cursor is updated only
when the row's gender cell is exactly `남` or `여` (any other value, empty or
not, leaves it unchanged); the name cursor is updated whenever the name cell
is non-empty; and a row whose updated name cursor is still empty changes no
worker data. -/
theorem forward_fill_amended :
    (∀ cur gv : String,
      ((gv = "남" ∨ gv = "여") → fillGender cur gv = gv) ∧
      (gv ≠ "남" → gv ≠ "여" → fillGender cur gv = cur)) ∧
    (∀ cur nv : String,
      (nv ≠ "" → fillName cur nv = nv) ∧ (nv = "" → fillName cur nv = cur)) ∧
    (∀ (dhs : List DateHeader) (cm : ColumnMap) (st : WalkState) (row : List CellValue),
      (processRow dhs cm st row).curGender =
        fillGender st.curGender (readCellText row cm.genderCol) ∧
      (processRow dhs cm st row).curName =
        fillName st.curName (readCellText row cm.nameCol) ∧
      (fillName st.curName (readCellText row cm.nameCol) = "" →
        (processRow dhs cm st row).workers = st.workers ∧
        (processRow dhs cm st row).nextOrder = st.nextOrder)) := by
  refine ⟨?_, ?_, ?_⟩
  · intro cur gv
    constructor
    · intro hg
      simp [fillGender, hg]
    · intro h1 h2
      simp [fillGender, h1, h2]
  · intro cur nv
    constructor
    · intro hn
      simp [fillName, hn]
    · intro hn
      simp [fillName, hn]
  · intro dhs cm st row
    refine ⟨?_, ?_, ?_⟩
    · simp only [processRow]
      split_ifs <;> rfl
    · simp only [processRow]
      split_ifs <;> rfl
    · intro hn
      simp [processRow, if_pos hn]

/-- C9 witness: on a concrete row the gender cursor ignores the non-empty
value `x`, the name cursor keeps its value over an empty cell, and a row that
precedes any name changes no worker data. -/
theorem forward_fill_amended_witness :
    fillGender "여" "x" = "여" ∧ fillName "김" "" = "김" ∧
      (processRow [] ⟨1, 2, 3, 1⟩ ⟨[], "남", "", 0⟩ []).workers = [] :=
  ⟨(forward_fill_amended.1 "여" "x").2 (by decide) (by decide),
   (forward_fill_amended.2.1 "김" "").2 rfl,
   ((forward_fill_amended.2.2 [] ⟨1, 2, 3, 1⟩ ⟨[], "남", "", 0⟩ []).2.2 (by decide)).1⟩

/-! ## Header-scan characterization (claim C7) -/

/-- Column of the last cell (in scan order, numbering from `col`) whose
trimmed rendering is `성별`. -/
def lastGenderCol (col : Nat) : List CellValue → Option Nat
  | [] => none
  | cv :: rest =>
    match lastGenderCol (col + 1) rest with
    | some c => some c
    | none => if trimString (jsString cv) = "성별" then some col else none

/-- Column of the last cell whose trimmed rendering is `성명` or `이름`. -/
def lastNameCol (col : Nat) : List CellValue → Option Nat
  | [] => none
  | cv :: rest =>
    match lastNameCol (col + 1) rest with
    | some c => some c
    | none =>
      if trimString (jsString cv) = "성명" ∨ trimString (jsString cv) = "이름" then some col
      else none

/-- Column of the last cell whose trimmed rendering is `구분`. -/
def lastCategoryCol (col : Nat) : List CellValue → Option Nat
  | [] => none
  | cv :: rest =>
    match lastCategoryCol (col + 1) rest with
    | some c => some c
    | none => if trimString (jsString cv) = "구분" then some col else none

theorem scanCell_genderCol (st : HdrState) (n col : Nat) (cv : CellValue) :
    (scanCell st n col cv).genderCol =
      if trimString (jsString cv) = "성별" then (col : Int) else st.genderCol := by
  simp only [scanCell]
  split_ifs <;> rfl

theorem scanCell_headerRow (st : HdrState) (n col : Nat) (cv : CellValue) :
    (scanCell st n col cv).headerRow =
      if trimString (jsString cv) = "성별" then (n : Int) else st.headerRow := by
  simp only [scanCell]
  split_ifs <;> rfl

theorem scanCell_nameCol (st : HdrState) (n col : Nat) (cv : CellValue) :
    (scanCell st n col cv).nameCol =
      if trimString (jsString cv) = "성명" ∨ trimString (jsString cv) = "이름" then (col : Int)
      else st.nameCol := by
  simp only [scanCell]
  split_ifs <;> first | rfl | simp_all

theorem scanCell_categoryCol (st : HdrState) (n col : Nat) (cv : CellValue) :
    (scanCell st n col cv).categoryCol =
      if trimString (jsString cv) = "구분" then (col : Int) else st.categoryCol := by
  simp only [scanCell]
  split_ifs <;> first | rfl | simp_all

theorem scanCells_genderCol :
    ∀ (cells : List CellValue) (st : HdrState) (n col : Nat),
      (scanCells st n col cells).genderCol =
        (lastGenderCol col cells).elim st.genderCol (fun c => (c : Int)) := by
  intro cells
  induction cells with
  | nil => intro st n col; rfl
  | cons cv rest ih =>
    intro st n col
    simp only [scanCells, lastGenderCol]
    rw [ih (scanCell st n col cv) n (col + 1)]
    cases hres : lastGenderCol (col + 1) rest with
    | some c => simp
    | none =>
      rw [scanCell_genderCol]
      split_ifs with h <;> simp

theorem scanCells_headerRow :
    ∀ (cells : List CellValue) (st : HdrState) (n col : Nat),
      (scanCells st n col cells).headerRow =
        (lastGenderCol col cells).elim st.headerRow (fun _ => (n : Int)) := by
  intro cells
  induction cells with
  | nil => intro st n col; rfl
  | cons cv rest ih =>
    intro st n col
    simp only [scanCells, lastGenderCol]
    rw [ih (scanCell st n col cv) n (col + 1)]
    cases hres : lastGenderCol (col + 1) rest with
    | some c => simp
    | none =>
      rw [scanCell_headerRow]
      split_ifs with h <;> simp

theorem scanCells_nameCol :
    ∀ (cells : List CellValue) (st : HdrState) (n col : Nat),
      (scanCells st n col cells).nameCol =
        (lastNameCol col cells).elim st.nameCol (fun c => (c : Int)) := by
  intro cells
  induction cells with
  | nil => intro st n col; rfl
  | cons cv rest ih =>
    intro st n col
    simp only [scanCells, lastNameCol]
    rw [ih (scanCell st n col cv) n (col + 1)]
    cases hres : lastNameCol (col + 1) rest with
    | some c => simp
    | none =>
      rw [scanCell_nameCol]
      split_ifs with h <;> simp

theorem scanCells_categoryCol :
    ∀ (cells : List CellValue) (st : HdrState) (n col : Nat),
      (scanCells st n col cells).categoryCol =
        (lastCategoryCol col cells).elim st.categoryCol (fun c => (c : Int)) := by
  intro cells
  induction cells with
  | nil => intro st n col; rfl
  | cons cv rest ih =>
    intro st n col
    simp only [scanCells, lastCategoryCol]
    rw [ih (scanCell st n col cv) n (col + 1)]
    cases hres : lastCategoryCol (col + 1) rest with
    | some c => simp
    | none =>
      rw [scanCell_categoryCol]
      split_ifs with h <;> simp

/-- C7 counterexample: in `gridC7` the label `성별` occurs at columns 1 and 4
of the first row; the scan records column 4, so the later duplicate overwrote
the assignment made by the first matching cell. -/
theorem header_first_match_counterexample :
    headerScan gridC7 = ⟨4, 2, 3, 1⟩ ∧ (headerScan gridC7).genderCol ≠ 1 :=
  ⟨by decide, by decide⟩

/-- C7 amended: within the scanned rows each label assignment is won by the
LAST matching cell in scan order — a later duplicate label overwrites an
earlier assignment (`헤더Row` follows the last `성별` match) — and row
scanning still stops early: rows after the first row at whose end all three
fields are assigned are never scanned. -/
theorem header_scan_amended :
    (∀ (cells : List CellValue) (st : HdrState) (n col : Nat),
      (scanCells st n col cells).genderCol =
        (lastGenderCol col cells).elim st.genderCol (fun c => (c : Int)) ∧
      (scanCells st n col cells).headerRow =
        (lastGenderCol col cells).elim st.headerRow (fun _ => (n : Int)) ∧
      (scanCells st n col cells).nameCol =
        (lastNameCol col cells).elim st.nameCol (fun c => (c : Int)) ∧
      (scanCells st n col cells).categoryCol =
        (lastCategoryCol col cells).elim st.categoryCol (fun c => (c : Int))) ∧
    (∀ (st : HdrState) (n : Nat) (r : List CellValue) (rs : List (List CellValue)),
      hdrComplete (scanCells st n 1 r) = true →
      scanRows st n (r :: rs) = scanCells st n 1 r) := by
  constructor
  · intro cells st n col
    exact ⟨scanCells_genderCol cells st n col, scanCells_headerRow cells st n col,
      scanCells_nameCol cells st n col, scanCells_categoryCol cells st n col⟩
  · intro st n r rs h
    simp only [scanRows]
    rw [if_pos h]

/-- C7 witness: a state already complete after the first (empty) row stops the
scan; the `성별` cell of the second row is never read. -/
theorem header_scan_amended_witness :
    hdrComplete (scanCells ⟨1, 2, 3, 1⟩ 1 1 []) = true ∧
      scanRows ⟨1, 2, 3, 1⟩ 1 ([] :: [[CellValue.text "성별"]]) =
        scanCells ⟨1, 2, 3, 1⟩ 1 1 [] :=
  ⟨by decide,
   header_scan_amended.2 ⟨1, 2, 3, 1⟩ 1 [] [[CellValue.text "성별"]] (by decide)⟩

/-! ## Date-scan invariants (claim C8) -/

/-- Well-formedness of one cell: a date-typed cell carries a genuine
day-of-month, as `Date.getDate()` guarantees at the source runtime. -/
def WFCell : CellValue → Prop
  | .date d => 1 ≤ d ∧ d ≤ 31
  | _ => True

instance : DecidablePred WFCell := fun cv =>
  match cv with
  | .date d => inferInstanceAs (Decidable (1 ≤ d ∧ d ≤ 31))
  | .empty => inferInstanceAs (Decidable True)
  | .num _ => inferInstanceAs (Decidable True)
  | .text _ => inferInstanceAs (Decidable True)
  | .rich _ => inferInstanceAs (Decidable True)

/-- Well-formedness of a grid: every date-typed cell holds a day in 1..31. -/
def WFGrid (g : Grid) : Prop :=
  ∀ row ∈ g, ∀ cv ∈ row, WFCell cv

instance : DecidablePred WFGrid := fun g =>
  inferInstanceAs (Decidable (∀ row ∈ g, ∀ cv ∈ row, WFCell cv))

theorem digitVal_le_of_isDigitChar {c : Char} (h : isDigitChar c = true) : digitVal c ≤ 9 := by
  simp only [isDigitChar, Bool.and_eq_true, decide_eq_true_eq] at h
  simp only [digitVal]
  omega

theorem mdAfterSlash_le {cs : List Char} {d : Nat} (h : mdAfterSlash cs = some d) : d ≤ 99 := by
  match cs, h with
  | [], h => simp [mdAfterSlash] at h
  | [a], h =>
    simp only [mdAfterSlash] at h
    split_ifs at h with h1
    · injection h with h2
      have := digitVal_le_of_isDigitChar h1
      omega
  | a :: b :: tail, h =>
    simp only [mdAfterSlash] at h
    split_ifs at h with h1 h2
    · injection h with h3
      have ha := digitVal_le_of_isDigitChar h1
      have hb := digitVal_le_of_isDigitChar h2
      omega
    · injection h with h3
      have := digitVal_le_of_isDigitChar h1
      omega

theorem tryMDAt_le {cs : List Char} {d : Nat} (h : tryMDAt cs = some d) : d ≤ 99 := by
  match cs, h with
  | [], h => simp [tryMDAt] at h
  | [a], h => simp [tryMDAt] at h
  | [a, b], h => simp [tryMDAt] at h
  | a :: b :: c :: rest, h =>
    simp only [tryMDAt] at h
    split_ifs at h with h1 h2
    · exact mdAfterSlash_le h
    · exact mdAfterSlash_le h

theorem matchMD_le {cs : List Char} {d : Nat} (h : matchMD cs = some d) : d ≤ 99 := by
  induction cs with
  | nil => simp [matchMD] at h
  | cons c rest ih =>
    simp only [matchMD] at h
    cases htry : tryMDAt (c :: rest) with
    | some x =>
      rw [htry] at h
      injection h with h2
      subst h2
      exact tryMDAt_le htry
    | none =>
      rw [htry] at h
      exact ih h

theorem mem_pushIfNew {acc : List DateHeader} {col day : Nat} {x : DateHeader}
    (hx : x ∈ pushIfNew acc col day) : x ∈ acc ∨ x = ⟨col, day⟩ := by
  unfold pushIfNew at hx
  split_ifs at hx with h
  · exact Or.inl hx
  · rcases List.mem_append.mp hx with h' | h'
    · exact Or.inl h'
    · exact Or.inr (List.mem_singleton.mp h')

theorem nodup_pushIfNew {acc : List DateHeader} {col day : Nat}
    (h : (acc.map DateHeader.col).Nodup) :
    ((pushIfNew acc col day).map DateHeader.col).Nodup := by
  unfold pushIfNew
  split_ifs with hc
  · exact h
  · rw [List.map_append]
    refine List.Nodup.append h (by simp) ?_
    intro a ha hb
    rcases List.mem_map.mp ha with ⟨hd, hmem, rfl⟩
    simp only [List.map_cons, List.map_nil, List.mem_singleton] at hb
    exact hc (List.any_eq_true.mpr ⟨hd, hmem, by simp [hb]⟩)

/-- Invariant carried through the date scan: column uniqueness together with a
predicate on every recorded day. -/
def DateAccInv (P : Nat → Prop) (acc : List DateHeader) : Prop :=
  ((acc.map DateHeader.col).Nodup) ∧ ∀ h ∈ acc, P h.day

theorem dateAccInv_pushIfNew {P : Nat → Prop} {acc : List DateHeader} {col day : Nat}
    (h : DateAccInv P acc) (hday : P day) : DateAccInv P (pushIfNew acc col day) := by
  refine ⟨nodup_pushIfNew h.1, ?_⟩
  intro x hx
  rcases mem_pushIfNew hx with h' | h'
  · exact h.2 x h'
  · rw [h']
    exact hday

theorem dateScanText_inv {P : Nat → Prop} {acc : List DateHeader} {col : Nat} {value : String}
    (h : DateAccInv P acc) (hP : ∀ d, d ≤ 99 → P d) :
    DateAccInv P (dateScanText acc col value) := by
  cases hmd : matchMD value.data with
  | some d =>
    have heq : dateScanText acc col value = pushIfNew acc col d := by
      unfold dateScanText
      rw [hmd]
    rw [heq]
    exact dateAccInv_pushIfNew h (hP d (matchMD_le hmd))
  | none =>
    cases hb : matchBare value with
    | some d =>
      have heq : dateScanText acc col value =
          if 1 ≤ d ∧ d ≤ 31 then pushIfNew acc col d else acc := by
        unfold dateScanText
        rw [hmd, hb]
      rw [heq]
      split_ifs with hr
      · exact dateAccInv_pushIfNew h (hP d (by omega))
      · exact h
    | none =>
      have heq : dateScanText acc col value = acc := by
        unfold dateScanText
        rw [hmd, hb]
      rw [heq]
      exact h

theorem dateScanCell_inv {P : Nat → Prop} {catCol : Nat} {acc : List DateHeader} {col : Nat}
    {cv : CellValue} (h : DateAccInv P acc) (hP : ∀ d, d ≤ 99 → P d)
    (hcell : ∀ d, cv = CellValue.date d → P d) :
    DateAccInv P (dateScanCell catCol acc col cv) := by
  unfold dateScanCell
  split_ifs with hr
  · cases cv with
    | date d => exact dateAccInv_pushIfNew h (hcell d rfl)
    | empty => exact dateScanText_inv h hP
    | num q => exact dateScanText_inv h hP
    | text s => exact dateScanText_inv h hP
    | rich s => exact dateScanText_inv h hP
  · exact h

theorem dateScanRow_inv {P : Nat → Prop} {catCol : Nat} :
    ∀ (cells : List CellValue) (acc : List DateHeader) (col : Nat),
      DateAccInv P acc → (∀ d, d ≤ 99 → P d) →
      (∀ cv ∈ cells, ∀ d, cv = CellValue.date d → P d) →
      DateAccInv P (dateScanRow catCol acc col cells)
  | [], _, _, h, _, _ => h
  | cv :: rest, acc, col, h, hP, hcells => by
    simp only [dateScanRow]
    exact dateScanRow_inv rest _ _
      (dateScanCell_inv h hP (hcells cv (List.mem_cons_self cv rest))) hP
      (fun c hc => hcells c (List.mem_cons_of_mem cv hc))

theorem dateScanRows_inv {P : Nat → Prop} {catCol : Nat} :
    ∀ (rows : List (List CellValue)) (acc : List DateHeader),
      DateAccInv P acc → (∀ d, d ≤ 99 → P d) →
      (∀ r ∈ rows, ∀ cv ∈ r, ∀ d, cv = CellValue.date d → P d) →
      DateAccInv P (dateScanRows catCol acc rows)
  | [], _, h, _, _ => h
  | r :: rs, acc, h, hP, hrows => by
    simp only [dateScanRows]
    split_ifs with hlen
    · exact dateScanRow_inv r acc 1 h hP (hrows r (List.mem_cons_self r rs))
    · exact dateScanRows_inv rs _
        (dateScanRow_inv r acc 1 h hP (hrows r (List.mem_cons_self r rs))) hP
        (fun r' hr' => hrows r' (List.mem_cons_of_mem r hr'))

theorem dateScan_inv {P : Nat → Prop} {g : Grid} (hP : ∀ d, d ≤ 99 → P d)
    (hdates : ∀ r ∈ g, ∀ cv ∈ r, ∀ d, cv = CellValue.date d → P d) :
    ((dateScan g).map DateHeader.col).Nodup ∧ ∀ h ∈ dateScan g, P h.day := by
  have hbase : DateAccInv P (dateScanRows (headerScan g).categoryCol [] (g.take 10)) :=
    dateScanRows_inv (g.take 10) [] ⟨List.nodup_nil, by intro x hx; cases hx⟩ hP
      (fun r hr => hdates r (List.take_subset 10 g hr))
  constructor
  · have hperm := List.perm_insertionSort
      (fun (a b : DateHeader) => a.col ≤ b.col)
      (dateScanRows (headerScan g).categoryCol [] (g.take 10))
    exact ((hperm.map DateHeader.col).nodup_iff).mpr hbase.1
  · intro x hx
    have hx' := List.mem_insertionSort
      (r := fun (a b : DateHeader) => a.col ≤ b.col) |>.mp hx
    exact hbase.2 x hx'

/-- C8 counterexample: a well-formed grid whose only date-region cell is the
text `1/99` produces the DateHeader day 99 — the `M/D` path stores the second
captured number with no 1–31 range check. -/
theorem date_header_range_counterexample :
    dateScan gridC8 = [⟨4, 99⟩] ∧ ¬((99 : Nat) ≤ 31) ∧ WFGrid gridC8 :=
  ⟨by decide, by decide, by decide⟩

/-- C8 amended: at most one DateHeader per column always holds (once a column
is assigned a day, no later cell reassigns it), and for a grid whose
date-typed cells are well formed every recorded day is at most 99 — the
two-digit bound of the `M/D` text path — rather than at most 31; the 1–31
range is enforced only on the date-typed and bare-digit paths. -/
theorem date_headers_amended :
    (∀ g : Grid, ((dateScan g).map DateHeader.col).Nodup) ∧
    (∀ g : Grid, WFGrid g → ∀ h ∈ dateScan g, h.day ≤ 99) := by
  constructor
  · intro g
    exact (dateScan_inv (P := fun _ => True) (fun _ _ => trivial)
      (fun _ _ _ _ _ _ => trivial)).1
  · intro g hwf
    refine (dateScan_inv (P := fun d => d ≤ 99) (fun _ h => h) ?_).2
    intro r hr cv hcv d hd
    have := hwf r hr cv hcv
    rw [hd] at this
    exact le_trans this.2 (by omega)

/-- C8 witness: the well-formed grid `gridC8` satisfies the amended bound at
its single recorded date header. -/
theorem date_headers_amended_witness :
    WFGrid gridC8 ∧ (⟨4, 99⟩ : DateHeader) ∈ dateScan gridC8 ∧ (99 : Nat) ≤ 99 :=
  ⟨by decide, by decide,
   date_headers_amended.2 gridC8 (by decide) ⟨4, 99⟩ (by decide)⟩

end TimeSheet
